import Mathlib

/-!
Shallow embedding of `src/index.tsx`, a single-page personal-finance tracker.
JavaScript numbers appear in two guises.  Stored values (amounts, budget) are
carried as exact rationals (`ℚ`) where no arithmetic is performed on them.
For the aggregation, whose content is arithmetic, the faithful semantics of
the additions and subtractions performed by the program is IEEE-754 binary64:
it is embedded by the `DFloat` model below (round to nearest, ties to even,
53-bit significand); the exact-rational reading of the same computations is
kept alongside under `Exact` names as the idealization the spec asserts, to
be compared with the rounded semantics.
Transaction dates are the `YYYY-MM-DD` strings produced by the date input;
`new Date(d).getTime()` is strictly monotone in the lexicographic order of
such strings and equal strings parse to equal times, so the sort comparator
is embedded as lexicographic comparison of the `date` fields.
-/

namespace ExpensesApp

/-- The TS union type of transaction kinds: income, fixed-expense, variable-expense. -/
inductive TxType where
  | income
  | fixedExpense
  | variableExpense
deriving DecidableEq, Repr

/-- The `Transaction` interface of `index.tsx`.  `amount : number` is embedded
as `ℚ`, `category?: string` as `Option String`. -/
structure Transaction where
  id : String
  description : String
  amount : ℚ
  type : TxType
  category : Option String
  date : String
  user : String
deriving DecidableEq, Repr

/-- Source constant DEFAULT_CATEGORIES. -/
def DEFAULT_CATEGORIES : List String :=
  ["Comida", "Transporte", "Ocio", "Hogar", "Salud", "Educación"]

/-- Source constant DEFAULT_USERS. -/
def DEFAULT_USERS : List String := ["Usuario 1", "Usuario 2"]

/-- Source constant DEFAULT_BUDGET. -/
def DEFAULT_BUDGET : ℚ := 2000

/-- Exact-arithmetic idealization of one step of the `transactions.reduce`
accumulator in the `useMemo` of the `App` component (three independent `if`
statements, each adding `t.amount` to the total of the kind of `t`), as the
spec reads it: the additions here are exact rational additions, whereas the
program adds IEEE-754 doubles.  The faithful rounded semantics of the same
reduce is `aggregateStepD` below; the `Exact` definitions exist to be
compared with it. -/
def aggregateStepExact (acc : ℚ × ℚ × ℚ) (t : Transaction) : ℚ × ℚ × ℚ :=
  (acc.1 + (if t.type = TxType.income then t.amount else 0),
   acc.2.1 + (if t.type = TxType.fixedExpense then t.amount else 0),
   acc.2.2 + (if t.type = TxType.variableExpense then t.amount else 0))

/-- Exact-arithmetic idealization of the `useMemo` aggregation
`transactions.reduce(..., {0,0,0})`; the faithful rounded semantics is
`aggregateD` below. -/
def aggregateExact (ts : List Transaction) : ℚ × ℚ × ℚ :=
  ts.foldl aggregateStepExact (0, 0, 0)

/-- Component `totalIncome` of the exact-arithmetic idealized aggregation. -/
def totalIncomeExact (ts : List Transaction) : ℚ := (aggregateExact ts).1

/-- Component `totalFixedExpenses` of the exact-arithmetic idealized aggregation. -/
def totalFixedExpensesExact (ts : List Transaction) : ℚ := (aggregateExact ts).2.1

/-- Component `totalVariableExpenses` of the exact-arithmetic idealized aggregation. -/
def totalVariableExpensesExact (ts : List Transaction) : ℚ := (aggregateExact ts).2.2

/-- Exact-arithmetic idealization of the source line
const totalExpenses = totalFixedExpenses + totalVariableExpenses; the
faithful rounded semantics is `totalExpensesD` below. -/
def totalExpensesExact (ts : List Transaction) : ℚ :=
  totalFixedExpensesExact ts + totalVariableExpensesExact ts

/-- Exact-arithmetic idealization of the source line
const remainingBudget = budget + totalIncome - totalExpenses; the faithful
rounded semantics is `remainingBudgetD` below. -/
def remainingBudgetExact (budget : ℚ) (ts : List Transaction) : ℚ :=
  budget + totalIncomeExact ts - totalExpensesExact ts

/-- The sort comparator `(a, b) => new Date(b.date).getTime() - new Date(a.date).getTime()`:
`a` precedes (or ties) `b` exactly when `b.date ≤ a.date`, i.e. descending
date order.  See the header note for why lexicographic comparison of the ISO
date strings embeds the comparator; the lexicographic order is taken on the
underlying character lists. -/
def dateGE (a b : Transaction) : Prop := b.date.data ≤ a.date.data

instance : DecidableRel dateGE := fun a b => inferInstanceAs (Decidable (b.date.data ≤ a.date.data))

instance : IsTotal Transaction dateGE := ⟨fun a b => le_total b.date.data a.date.data⟩

instance : IsTrans Transaction dateGE :=
  ⟨fun _ _ _ hab hbc => le_trans hbc hab⟩

/-- The argument record of `addTransaction`: every `Transaction` field except the identifier. -/
structure TxInput where
  description : String
  amount : ℚ
  type : TxType
  category : Option String
  date : String
  user : String
deriving DecidableEq, Repr

/-- The four persisted values of `App` plus the identifier source.
`nextId` is a model artifact: `crypto.randomUUID()` is embedded as drawing a
fresh identifier from a counter; the only property of the generator the code
relies on is freshness of the produced identifiers. -/
structure AppState where
  transactions : List Transaction
  categories : List String
  users : List String
  budget : ℚ
  nextId : Nat
deriving DecidableEq, Repr

/-- Embedding of the spread `...transaction` together with `id: crypto.randomUUID()`,
with the counter model of the identifier generator. -/
def mkTransaction (n : Nat) (inp : TxInput) : Transaction :=
  { id := toString n, description := inp.description, amount := inp.amount,
    type := inp.type, category := inp.category, date := inp.date, user := inp.user }

/-- Handler `addTransaction`: prepend the freshly identified transaction and sort the
whole collection with the descending-date comparator.  `Array.prototype.sort`
is required to be stable, and a stable sort of a list under a total preorder
is unique, so it is embedded by the stable `List.insertionSort`. -/
def addTransaction (s : AppState) (inp : TxInput) : AppState :=
  { s with
    transactions := List.insertionSort dateGE (mkTransaction s.nextId inp :: s.transactions),
    nextId := s.nextId + 1 }

/-- Handler `deleteTransaction`: keep exactly the transactions whose identifier differs. -/
def deleteTransaction (s : AppState) (id : String) : AppState :=
  { s with transactions := s.transactions.filter (fun t => t.id != id) }

/-- Handler `addCategory`: append when the name is truthy (non-empty) and not already included. -/
def addCategory (s : AppState) (category : String) : AppState :=
  if category ≠ "" ∧ ¬ s.categories.contains category then
    { s with categories := s.categories ++ [category] }
  else s

/-- Handler `deleteCategory`: keep exactly the entries that differ from the given value. -/
def deleteCategory (s : AppState) (categoryToDelete : String) : AppState :=
  { s with categories := s.categories.filter (fun c => c != categoryToDelete) }

/-- Handler `addUser`: append when the name is truthy (non-empty) and not already included. -/
def addUser (s : AppState) (user : String) : AppState :=
  if user ≠ "" ∧ ¬ s.users.contains user then
    { s with users := s.users ++ [user] }
  else s

/-- Handler `deleteUser`: keep exactly the entries that differ from the given value. -/
def deleteUser (s : AppState) (userToDelete : String) : AppState :=
  { s with users := s.users.filter (fun u => u != userToDelete) }

/-- The initial application state: empty transactions and the three seeded
defaults, with the identifier counter at `0`. -/
def initialState : AppState :=
  { transactions := [], categories := DEFAULT_CATEGORIES, users := DEFAULT_USERS,
    budget := DEFAULT_BUDGET, nextId := 0 }

/-- The CSV column header names of the export, in column order. -/
def headers : List String :=
  ["ID", "Descripción", "Monto", "Tipo", "Categoría", "Fecha", "Usuario"]

/-- The literal strings of the TS union type, as they appear in a CSV row. -/
def typeStr : TxType → String
  | TxType.income => "income"
  | TxType.fixedExpense => "fixed-expense"
  | TxType.variableExpense => "variable-expense"

/-- JS `String(t.amount)` on a number.  The exact digit sequence is immaterial
to the claims; the embedding renders the rational with `toString`, and like the
JS rendering it never contains a comma. -/
def amountStr (q : ℚ) : String := toString q

/-- The global regex replacement inside `formatCsvCell`: every double-quote
character is doubled. -/
def escapeQuotesAux : List Char → List Char
  | [] => []
  | c :: cs => if c = '"' then '"' :: '"' :: escapeQuotesAux cs else c :: escapeQuotesAux cs

/-- Function `escapeQuotes`: the quote-doubling replacement applied to a string. -/
def escapeQuotes (s : String) : String := ⟨escapeQuotesAux s.data⟩

/-- Whether the cell includes a literal comma character. -/
def includesComma (s : String) : Bool := s.data.contains ','

/-- Helper `formatCsvCell` on an already-stringified cell: wrap in double quotes with
internal double quotes doubled exactly when the cell contains a comma. -/
def formatCsvCell (cell : String) : String :=
  if includesComma cell then "\"" ++ escapeQuotes cell ++ "\"" else cell

/-- One data row of the export: the seven columns joined with commas.
`formatCsvCell` receives `t.description`, `t.category` and `t.user`; for the
optional category the source stringifies a nullish value to the empty
string, rendering an absent category as the empty field.  `t.id`, `t.amount`, `t.type` and
`t.date` are joined raw. -/
def csvRow (t : Transaction) : String :=
  String.intercalate ","
    [t.id, formatCsvCell t.description, amountStr t.amount, typeStr t.type,
     formatCsvCell (t.category.getD ""), t.date, formatCsvCell t.user]

/-- Join of the rows with newlines: header row followed by one row per transaction. -/
def csvContent (ts : List Transaction) : String :=
  String.intercalate "\n" (String.intercalate "," headers :: ts.map csvRow)

/-- The observable outcome of `exportToCsv`: either the `alert` notice or a
download of a named file with the given content. -/
inductive ExportResult where
  | notice (msg : String)
  | file (name : String) (content : String)
deriving DecidableEq, Repr

/-- Handler `exportToCsv` on the current transaction collection: alert and stop when
the collection is empty, otherwise offer `transacciones.csv` with the
rendered rows. -/
def exportToCsv (ts : List Transaction) : ExportResult :=
  if ts.length = 0 then ExportResult.notice "No hay transacciones para exportar."
  else ExportResult.file "transacciones.csv" (csvContent ts)

/-- Handler `exportToCsv` viewed as an operation on the application state: the body
reads `transactions` and calls no state setter, so the state component of the
result is the input state. -/
def exportToCsvS (s : AppState) : AppState × ExportResult :=
  (s, exportToCsv s.transactions)

/-- The raw (pre-quoting) string value of each of the seven columns of a data
row, in column order; used to state the field-quoting claim. -/
def rawFields (t : Transaction) : List String :=
  [t.id, t.description, amountStr t.amount, typeStr t.type,
   t.category.getD "", t.date, t.user]

/-- The value of a digit string, most significant first. -/
def digitsToNat (cs : List Char) : Nat :=
  cs.foldl (fun n c => 10 * n + (c.toNat - Char.toNat '0')) 0

/-- JS `parseFloat`, restricted to the strings a `type="number"` input can
hold: an optional sign, an integer part and an optional fractional part (the
value of the input is the empty string whenever its contents are not a valid
number).  `none` plays the role of `NaN`. -/
def jsParseFloat (s : String) : Option ℚ :=
  let signed : Bool × List Char :=
    match s.data with
    | '-' :: cs => (true, cs)
    | '+' :: cs => (false, cs)
    | cs => (false, cs)
  let intPart := signed.2.takeWhile Char.isDigit
  let afterInt := signed.2.dropWhile Char.isDigit
  let magnitude : Option ℚ :=
    match afterInt with
    | [] =>
        if intPart = [] then none
        else some (digitsToNat intPart : ℚ)
    | '.' :: fracRest =>
        let fracPart := fracRest.takeWhile Char.isDigit
        let afterFrac := fracRest.dropWhile Char.isDigit
        if afterFrac = [] ∧ (intPart ≠ [] ∨ fracPart ≠ []) then
          some (mkRat (digitsToNat intPart * 10 ^ fracPart.length + digitsToNat fracPart)
                 (10 ^ fracPart.length))
        else none
    | _ => none
  magnitude.map (fun v => if signed.1 then -v else v)

/-- Handler `TransactionForm.handleSubmit`: rejects (returns without adding) when any
of the four text values is empty — `!description || !amount || !date || !user`
— and otherwise builds the `addTransaction` argument, parsing the amount text
with `parseFloat` and attaching the category only for expense kinds.  The
value of a number input is empty or a decimal literal, so `parseFloat`
returning `NaN` is unreachable through the form; the embedding folds that
case into rejection. -/
def handleSubmit (description amount date user : String) (ty : TxType)
    (category : String) : Option TxInput :=
  if description = "" ∨ amount = "" ∨ date = "" ∨ user = "" then none
  else
    match jsParseFloat amount with
    | none => none
    | some q =>
        some { description := description, amount := q, type := ty,
               category := if ty ≠ TxType.income then some category else none,
               date := date, user := user }

/-- The browser `localStorage`: an association of keys to stored strings,
most recent write first. -/
def Store : Type := List (String × String)

/-- Lookup `window.localStorage.getItem(key)`: the most recently written value
under `key`, if any. -/
def getItem (st : Store) (key : String) : Option String :=
  (List.find? (fun p => p.1 == key) st).map Prod.snd

/-- Write `window.localStorage.setItem(key, value)`. -/
def setItem (st : Store) (key value : String) : Store :=
  (key, value) :: st

/-- A serialization pair standing for `JSON.stringify` / `JSON.parse` at the
type being persisted; `parse` returns `none` where `JSON.parse` would throw. -/
structure Codec (α : Type) where
  stringify : α → String
  parse : String → Option α

/-- The write half of `useLocalStorage.setValue`:
`window.localStorage.setItem(key, JSON.stringify(valueToStore))`. -/
def save {α : Type} (c : Codec α) (st : Store) (key : String) (v : α) : Store :=
  setItem st key (c.stringify v)

/-- The read half of the `useLocalStorage` initializer:
`item = getItem(key); item ? JSON.parse(item) : initialValue`, with the
`try/catch` returning `initialValue` on a parse failure. -/
def load {α : Type} (c : Codec α) (st : Store) (key : String) (initialValue : α) : α :=
  match getItem st key with
  | none => initialValue
  | some item => (c.parse item).getD initialValue

/-- A concrete serialization pair for booleans (JSON booleans serialize as the
literals `true` and `false`); used to instantiate the round-trip theorem. -/
def boolCodec : Codec Bool :=
  { stringify := fun b => if b then "true" else "false",
    parse := fun s => if s = "true" then some true
                      else if s = "false" then some false else none }

/-- One user-interface event acting on the transaction collection. -/
inductive Op where
  | add (inp : TxInput)
  | del (id : String)
deriving DecidableEq, Repr

/-- Dispatch one event to the corresponding handler. -/
def step (s : AppState) : Op → AppState
  | Op.add inp => addTransaction s inp
  | Op.del i => deleteTransaction s i

/-- Run a sequence of `addTransaction` / `deleteTransaction` events. -/
def runOps (s : AppState) : List Op → AppState
  | [] => s
  | op :: ops => runOps (step s op) ops

/-- The transactions created by the `add` events of `ops` and not removed by a
later `del` event, listed most recently inserted first, on top of the already
present transactions `acc` (also most recent first) with the identifier
counter at `n`. -/
def survivorsRev (n : Nat) (acc : List Transaction) : List Op → List Transaction
  | [] => acc
  | Op.add inp :: ops => survivorsRev (n + 1) (mkTransaction n inp :: acc) ops
  | Op.del i :: ops => survivorsRev n (acc.filter (fun t => t.id != i)) ops

/-- Characterization of the idealized (exact-arithmetic) aggregation fold
from an arbitrary accumulator: each component accumulates exactly the
amounts of its own kind. -/
lemma foldl_aggregateStepExact (ts : List Transaction) :
    ∀ acc : ℚ × ℚ × ℚ,
      List.foldl aggregateStepExact acc ts =
        (acc.1 + ((ts.filter (fun t => t.type = TxType.income)).map Transaction.amount).sum,
         acc.2.1 + ((ts.filter (fun t => t.type = TxType.fixedExpense)).map Transaction.amount).sum,
         acc.2.2 + ((ts.filter (fun t => t.type = TxType.variableExpense)).map Transaction.amount).sum) := by
  induction ts with
  | nil => intro acc; simp
  | cons t ts ih =>
      intro acc
      rw [List.foldl_cons, ih]
      cases ht : t.type <;>
        simp [aggregateStepExact, ht, List.filter_cons, Prod.ext_iff, add_assoc]

/-- The three kind-wise amount sums partition the total amount sum. -/
lemma sum_amount_partition (ts : List Transaction) :
    ((ts.filter (fun t => t.type = TxType.income)).map Transaction.amount).sum
      + ((ts.filter (fun t => t.type = TxType.fixedExpense)).map Transaction.amount).sum
      + ((ts.filter (fun t => t.type = TxType.variableExpense)).map Transaction.amount).sum
      = (ts.map Transaction.amount).sum := by
  induction ts with
  | nil => simp
  | cons t ts ih =>
      cases ht : t.type <;> simp [List.filter_cons, ht] <;> linarith [ih]

/-- Partition identity of the exact-arithmetic idealization: the three
idealized sub-sums count exactly the amounts of their own kinds and add up
to the exact sum of all `amount` fields.  The program computes with rounded
double additions instead, and the rounded aggregation violates this identity
(see the C2 counterexample below); this theorem records what survives of C2
under the exact reading the spec assumed. -/
theorem aggregationExact_partitions_amount_sum (ts : List Transaction) :
    totalIncomeExact ts + totalFixedExpensesExact ts + totalVariableExpensesExact ts
        = (ts.map Transaction.amount).sum ∧
    totalIncomeExact ts
        = ((ts.filter (fun t => t.type = TxType.income)).map Transaction.amount).sum ∧
    totalFixedExpensesExact ts
        = ((ts.filter (fun t => t.type = TxType.fixedExpense)).map Transaction.amount).sum ∧
    totalVariableExpensesExact ts
        = ((ts.filter (fun t => t.type = TxType.variableExpense)).map Transaction.amount).sum := by
  have h := foldl_aggregateStepExact ts (0, 0, 0)
  have hI : totalIncomeExact ts
      = ((ts.filter (fun t => t.type = TxType.income)).map Transaction.amount).sum := by
    unfold totalIncomeExact aggregateExact
    rw [h]
    simp
  have hF : totalFixedExpensesExact ts
      = ((ts.filter (fun t => t.type = TxType.fixedExpense)).map Transaction.amount).sum := by
    unfold totalFixedExpensesExact aggregateExact
    rw [h]
    simp
  have hV : totalVariableExpensesExact ts
      = ((ts.filter (fun t => t.type = TxType.variableExpense)).map Transaction.amount).sum := by
    unfold totalVariableExpensesExact aggregateExact
    rw [h]
    simp
  exact ⟨by rw [hI, hF, hV]; exact sum_amount_partition ts, hI, hF, hV⟩

/-- Regrouping identity of the exact-arithmetic idealization: over exact
rationals, `budget + income - (fixed + variable)` may be regrouped to
`budget + income - fixed - variable`.  In the rounded double semantics the
two groupings differ at reachable inputs (see the C3 counterexample below);
this theorem records what survives of C3 under the exact reading. -/
theorem remainingBudgetExact_identity (budget : ℚ) (ts : List Transaction) :
    remainingBudgetExact budget ts
      = budget + totalIncomeExact ts - totalFixedExpensesExact ts - totalVariableExpensesExact ts := by
  unfold remainingBudgetExact totalExpensesExact
  ring

/-- A binary floating-point value `m * 2 ^ e`.  Outputs of the operations
below are kept canonical: `m` is odd, or `m = 0` and `e = 0`, so distinct
canonical values denote distinct reals and structural equality is value
equality. -/
structure DFloat where
  m : Int
  e : Int
deriving DecidableEq, Repr

/-- Odd part and 2-adic valuation of a positive number, with explicit fuel so
that the kernel can evaluate it (the first component times `2 ^` the second
reconstructs the input). -/
def stripTwos : Nat → Nat → Nat × Nat
  | 0, n => (n, 0)
  | fuel + 1, n =>
      if n % 2 == 0 && n != 0 then
        let p := stripTwos fuel (n / 2)
        (p.1, p.2 + 1)
      else (n, 0)

/-- Canonical form of `m * 2 ^ e`: strip the factors of two out of `m`. -/
def normDF (m : Int) (e : Int) : DFloat :=
  if m = 0 then ⟨0, 0⟩
  else
    let p := stripTwos m.natAbs m.natAbs
    ⟨if m < 0 then -(p.1 : Int) else (p.1 : Int), e + (p.2 : Int)⟩

/-- Number of binary digits, with explicit fuel for kernel evaluation. -/
def bitlenAux : Nat → Nat → Nat
  | 0, _ => 0
  | fuel + 1, n => if n = 0 then 0 else bitlenAux fuel (n / 2) + 1

/-- Number of binary digits of a number (`0` has none). -/
def bitlen (n : Nat) : Nat := bitlenAux n n

/-- Round a magnitude to at most 53 significant bits, to nearest with ties to
even, returning the rounded magnitude and the exponent increment. -/
def roundMantissa (a : Nat) : Nat × Nat :=
  let L := bitlen a
  if L ≤ 53 then (a, 0)
  else
    let s := L - 53
    let hi := a / 2 ^ s
    let low := a % 2 ^ s
    let half := 2 ^ (s - 1)
    let hi2 := if low > half then hi + 1
               else if low < half then hi
               else if hi % 2 = 0 then hi else hi + 1
    (hi2, s)

/-- IEEE-754 rounding of the dyadic `m * 2 ^ e` to binary64 precision: round
to nearest, ties to even, 53-bit significand, with unbounded exponent.  This
coincides with binary64 on every computation that stays in the normal finite
range — as all values considered here do (no overflow, no subnormals, no
NaN). -/
def fl (m : Int) (e : Int) : DFloat :=
  if m = 0 then ⟨0, 0⟩
  else
    let r := roundMantissa m.natAbs
    normDF (if m < 0 then -(r.1 : Int) else (r.1 : Int)) (e + (r.2 : Int))

/-- The double `0`, the initial value of each accumulator field. -/
def dzero : DFloat := ⟨0, 0⟩

/-- IEEE-754 double addition: align the two dyadics, add exactly, round. -/
def dadd (x y : DFloat) : DFloat :=
  let e := min x.e y.e
  fl (x.m * 2 ^ (x.e - e).toNat + y.m * 2 ^ (y.e - e).toNat) e

/-- Double negation (exact). -/
def dneg (x : DFloat) : DFloat := ⟨-x.m, x.e⟩

/-- IEEE-754 double subtraction. -/
def dsub (x y : DFloat) : DFloat := dadd x (dneg y)

/-- Exact (unrounded) addition of two dyadics, in canonical form; used to
state the exact sum of stored amounts that the claims compare against. -/
def dxadd (x y : DFloat) : DFloat :=
  let e := min x.e y.e
  normDF (x.m * 2 ^ (x.e - e).toNat + y.m * 2 ^ (y.e - e).toNat) e

/-- Faithful semantics of one step of the `transactions.reduce` accumulator:
the three kind-guarded statements add with IEEE-754 double addition, and a
non-matching kind leaves the accumulator field untouched.  It is stated over
the kind and stored double amount of each transaction — the only fields the
reduce reads. -/
def aggregateStepD (acc : DFloat × DFloat × DFloat) (t : TxType × DFloat) :
    DFloat × DFloat × DFloat :=
  (if t.1 = TxType.income then dadd acc.1 t.2 else acc.1,
   if t.1 = TxType.fixedExpense then dadd acc.2.1 t.2 else acc.2.1,
   if t.1 = TxType.variableExpense then dadd acc.2.2 t.2 else acc.2.2)

/-- Faithful double semantics of the `useMemo` aggregation. -/
def aggregateD (ts : List (TxType × DFloat)) : DFloat × DFloat × DFloat :=
  ts.foldl aggregateStepD (dzero, dzero, dzero)

/-- Component `totalIncome` of the double aggregation. -/
def totalIncomeD (ts : List (TxType × DFloat)) : DFloat := (aggregateD ts).1

/-- Component `totalFixedExpenses` of the double aggregation. -/
def totalFixedExpensesD (ts : List (TxType × DFloat)) : DFloat := (aggregateD ts).2.1

/-- Component `totalVariableExpenses` of the double aggregation. -/
def totalVariableExpensesD (ts : List (TxType × DFloat)) : DFloat := (aggregateD ts).2.2

/-- Faithful double semantics of const totalExpenses = fixed + variable. -/
def totalExpensesD (ts : List (TxType × DFloat)) : DFloat :=
  dadd (totalFixedExpensesD ts) (totalVariableExpensesD ts)

/-- Faithful double semantics of const remainingBudget = budget + totalIncome
- totalExpenses, grouped as the program groups it. -/
def remainingBudgetD (budget : DFloat) (ts : List (TxType × DFloat)) : DFloat :=
  dsub (dadd budget (totalIncomeD ts)) (totalExpensesD ts)

/-- Left-to-right double sum of a list of doubles starting from `0`. -/
def sumD (l : List DFloat) : DFloat := l.foldl dadd dzero

/-- Exact (unrounded) sum of a list of dyadics starting from `0`. -/
def exactSumD (l : List DFloat) : DFloat := l.foldl dxadd dzero

/-- The binary64 double nearest to the decimal 0.1. -/
def d01 : DFloat := ⟨3602879701896397, -55⟩

/-- The binary64 double nearest to the decimal 0.2. -/
def d02 : DFloat := ⟨3602879701896397, -54⟩

/-- Characterization of the double aggregation fold from an arbitrary
accumulator: each component folds double addition over exactly the amounts
of its own kind, in collection order. -/
lemma foldl_aggregateStepD (ts : List (TxType × DFloat)) :
    ∀ acc : DFloat × DFloat × DFloat,
      List.foldl aggregateStepD acc ts =
        (List.foldl dadd acc.1 ((ts.filter (fun t => t.1 = TxType.income)).map Prod.snd),
         List.foldl dadd acc.2.1 ((ts.filter (fun t => t.1 = TxType.fixedExpense)).map Prod.snd),
         List.foldl dadd acc.2.2 ((ts.filter (fun t => t.1 = TxType.variableExpense)).map Prod.snd)) := by
  induction ts with
  | nil => intro acc; simp
  | cons t ts ih =>
      intro acc
      rw [List.foldl_cons, ih]
      rcases t with ⟨k, a⟩
      cases k <;> simp [aggregateStepD, List.filter_cons, Prod.ext_iff]

/-- C2 as amended: in the program's double arithmetic, each of the three
sub-sums of the aggregation is the rounded left-to-right double sum of
exactly the amounts of its own kind — amounts of other kinds contribute
nothing to it — and under the exact-arithmetic idealization the spec
intended, the full partition identity (the three sub-sums add up to the
exact sum of all amount fields, each counting only its own kind) holds
verbatim.  The exact partition identity fails for the rounded aggregation
itself (see the counterexample). -/
theorem aggregation_counts_own_kind (ts : List (TxType × DFloat)) (tsQ : List Transaction) :
    totalIncomeD ts
        = sumD ((ts.filter (fun t => t.1 = TxType.income)).map Prod.snd) ∧
    totalFixedExpensesD ts
        = sumD ((ts.filter (fun t => t.1 = TxType.fixedExpense)).map Prod.snd) ∧
    totalVariableExpensesD ts
        = sumD ((ts.filter (fun t => t.1 = TxType.variableExpense)).map Prod.snd) ∧
    totalIncomeExact tsQ + totalFixedExpensesExact tsQ + totalVariableExpensesExact tsQ
        = (tsQ.map Transaction.amount).sum := by
  have h := foldl_aggregateStepD ts (dzero, dzero, dzero)
  refine ⟨?_, ?_, ?_, (aggregationExact_partitions_amount_sum tsQ).1⟩
  · unfold totalIncomeD aggregateD sumD
    rw [h]
  · unfold totalFixedExpensesD aggregateD sumD
    rw [h]
  · unfold totalVariableExpensesD aggregateD sumD
    rw [h]

/-- Counterexample to C2 as stated: for two income transactions whose stored
double amounts are 0.1 and 0.2, the computed `totalIncome` — and with it the
grand total of the three sub-sums — is the double 0.30000000000000004, i.e.
1351079888211149 * 2 ^ (-52), while the exact sum of the two stored amounts
is 10808639105689191 * 2 ^ (-55); the two canonical values differ, so the
aggregation does not equal the sum of the stored amount fields. -/
theorem aggregation_partition_fails_for_doubles :
    totalIncomeD [(TxType.income, d01), (TxType.income, d02)]
        = ⟨1351079888211149, -52⟩ ∧
    dadd (dadd (totalIncomeD [(TxType.income, d01), (TxType.income, d02)])
          (totalFixedExpensesD [(TxType.income, d01), (TxType.income, d02)]))
        (totalVariableExpensesD [(TxType.income, d01), (TxType.income, d02)])
        = ⟨1351079888211149, -52⟩ ∧
    exactSumD [d01, d02] = ⟨10808639105689191, -55⟩ ∧
    (⟨1351079888211149, -52⟩ : DFloat) ≠ ⟨10808639105689191, -55⟩ := by
  decide

/-- C3 as amended: `remainingBudget` is the double computation
budget + totalIncome − totalExpenses with totalExpenses = totalFixedExpenses
+ totalVariableExpenses — the grouping the program performs — and the claimed
regrouped form budget + totalIncome − totalFixedExpenses −
totalVariableExpenses coincides with it under the exact-arithmetic
idealization, for arbitrary inputs including zero.  In double arithmetic the
two groupings differ at large inputs (see the counterexample). -/
theorem remainingBudget_grouping (budget : DFloat) (ts : List (TxType × DFloat))
    (b : ℚ) (tsQ : List Transaction) :
    remainingBudgetD budget ts
        = dsub (dadd budget (totalIncomeD ts))
            (dadd (totalFixedExpensesD ts) (totalVariableExpensesD ts)) ∧
    remainingBudgetExact b tsQ
        = b + totalIncomeExact tsQ - totalFixedExpensesExact tsQ
            - totalVariableExpensesExact tsQ :=
  ⟨rfl, remainingBudgetExact_identity b tsQ⟩

/-- The collection of the C3 counterexample: one fixed expense of
9007199254740992 = 2 ^ 53 and one variable expense of 1. -/
def bigExpenses : List (TxType × DFloat) :=
  [(TxType.fixedExpense, ⟨1, 53⟩), (TxType.variableExpense, ⟨1, 0⟩)]

/-- Counterexample to C3 as stated: with budget 1, one fixed expense 2 ^ 53
and one variable expense 1, the program computes
remainingBudget = fl(1 − fl(2 ^ 53 + 1)) = −9007199254740991, while the
claimed regrouping budget + totalIncome − totalFixedExpenses −
totalVariableExpenses evaluates (in double arithmetic, as in exact
arithmetic) to −9007199254740992 = −1 * 2 ^ 53; the identity is not exact at
large inputs. -/
theorem remainingBudget_regrouping_fails_for_doubles :
    remainingBudgetD ⟨1, 0⟩ bigExpenses = ⟨-9007199254740991, 0⟩ ∧
    dsub (dsub (dadd ⟨1, 0⟩ (totalIncomeD bigExpenses)) (totalFixedExpensesD bigExpenses))
        (totalVariableExpensesD bigExpenses) = ⟨-1, 53⟩ ∧
    (⟨-9007199254740991, 0⟩ : DFloat) ≠ ⟨-1, 53⟩ := by
  decide

/-- C6: for the category and user lists, `add(value)` is a no-op when the
value is empty or already present (case-sensitive), and otherwise appends the
value at the end, leaving all existing elements and their order unchanged. -/
theorem addCategory_addUser_spec (s : AppState) (v : String) :
    ((v = "" ∨ v ∈ s.categories) → addCategory s v = s) ∧
    (v ≠ "" → v ∉ s.categories → (addCategory s v).categories = s.categories ++ [v]) ∧
    ((v = "" ∨ v ∈ s.users) → addUser s v = s) ∧
    (v ≠ "" → v ∉ s.users → (addUser s v).users = s.users ++ [v]) := by
  refine ⟨?_, ?_, ?_, ?_⟩
  · intro h
    have hneg : ¬ (v ≠ "" ∧ ¬ s.categories.contains v) := by
      rcases h with h | h <;> simp [h]
    simp only [addCategory]
    rw [if_neg hneg]
  · intro h1 h2
    have hcond : v ≠ "" ∧ ¬ s.categories.contains v := ⟨h1, by simp [h2]⟩
    simp only [addCategory]
    rw [if_pos hcond]
  · intro h
    have hneg : ¬ (v ≠ "" ∧ ¬ s.users.contains v) := by
      rcases h with h | h <;> simp [h]
    simp only [addUser]
    rw [if_neg hneg]
  · intro h1 h2
    have hcond : v ≠ "" ∧ ¬ s.users.contains v := ⟨h1, by simp [h2]⟩
    simp only [addUser]
    rw [if_pos hcond]

/-- Witness for C6 at concrete inputs: adding a seeded category is a no-op
and adding a fresh user appends it at the end. -/
theorem addCategory_addUser_spec_witness :
    addCategory initialState "Comida" = initialState ∧
    (addUser initialState "Usuario 3").users = DEFAULT_USERS ++ ["Usuario 3"] :=
  ⟨(addCategory_addUser_spec initialState "Comida").1 (Or.inr (by decide)),
   (addCategory_addUser_spec initialState "Usuario 3").2.2.2 (by decide) (by decide)⟩

/-- C7: for the category and user lists, `delete(value)` removes every entry
equal to the value and no other entry, and leaves the transaction collection
(and the other state components) completely unchanged. -/
theorem deleteCategory_deleteUser_spec (s : AppState) (v : String) :
    (deleteCategory s v).transactions = s.transactions ∧
    (deleteCategory s v).users = s.users ∧
    (deleteCategory s v).budget = s.budget ∧
    v ∉ (deleteCategory s v).categories ∧
    ((deleteCategory s v).categories).Sublist s.categories ∧
    (∀ x, x ≠ v → ((deleteCategory s v).categories).count x = s.categories.count x) ∧
    (deleteUser s v).transactions = s.transactions ∧
    (deleteUser s v).categories = s.categories ∧
    (deleteUser s v).budget = s.budget ∧
    v ∉ (deleteUser s v).users ∧
    ((deleteUser s v).users).Sublist s.users ∧
    (∀ x, x ≠ v → ((deleteUser s v).users).count x = s.users.count x) := by
  refine ⟨rfl, rfl, rfl, ?_, ?_, ?_, rfl, rfl, rfl, ?_, ?_, ?_⟩
  · simp [deleteCategory, List.mem_filter]
  · exact List.filter_sublist _
  · intro x hx
    exact List.count_filter (by simp [hx])
  · simp [deleteUser, List.mem_filter]
  · exact List.filter_sublist _
  · intro x hx
    exact List.count_filter (by simp [hx])

/-- Witness for C7 at concrete inputs: deleting `Comida` keeps the
transactions, keeps the count of the untouched `Ocio` entry, and deleting
`Usuario 1` keeps the count of `Usuario 2`. -/
theorem deleteCategory_deleteUser_spec_witness :
    (deleteCategory initialState "Comida").transactions = initialState.transactions ∧
    ((deleteCategory initialState "Comida").categories).count "Ocio"
        = initialState.categories.count "Ocio" ∧
    ((deleteUser initialState "Usuario 1").users).count "Usuario 2"
        = initialState.users.count "Usuario 2" :=
  ⟨(deleteCategory_deleteUser_spec initialState "Comida").1,
   (deleteCategory_deleteUser_spec initialState "Comida").2.2.2.2.2.1 "Ocio" (by decide),
   (deleteCategory_deleteUser_spec initialState "Usuario 1").2.2.2.2.2.2.2.2.2.2.2
     "Usuario 2" (by decide)⟩

/-- C8: saving a value under a key and then loading that key returns the
saved value (`JSON.parse` inverting `JSON.stringify` on the persisted type),
and loading a never-written key returns the caller-supplied default. -/
theorem save_load_roundtrip {α : Type} (c : Codec α) (st : Store) (key : String)
    (v : α) (initialValue : α) (hc : ∀ x, c.parse (c.stringify x) = some x) :
    load c (save c st key v) key initialValue = v ∧
    (getItem st key = none → load c st key initialValue = initialValue) := by
  constructor
  · have hfound : getItem (save c st key v) key = some (c.stringify v) := by
      unfold getItem save setItem
      rw [List.find?_cons_of_pos _ (by simp)]
      rfl
    simp [load, hfound, hc]
  · intro h
    simp [load, h]

/-- Witness for C8: a boolean round-trips through an empty store. -/
theorem save_load_roundtrip_witness :
    load boolCodec (save boolCodec ([] : Store) "budget" true) "budget" false = true :=
  (save_load_roundtrip boolCodec ([] : Store) "budget" true false
    (fun x => by cases x <;> rfl)).1

/-- C9: invoking the exporter with an empty transaction collection signals
the user-visible notice and performs no further action — the state is
untouched and the outcome is the notice, not a file. -/
theorem exportToCsv_empty_notice (s : AppState) (h : s.transactions = []) :
    exportToCsvS s = (s, ExportResult.notice "No hay transacciones para exportar.") := by
  simp [exportToCsvS, exportToCsv, h]

/-- Witness for C9: exporting from the initial (empty) state yields the
notice. -/
theorem exportToCsv_empty_notice_witness :
    exportToCsvS initialState
      = (initialState, ExportResult.notice "No hay transacciones para exportar.") :=
  exportToCsv_empty_notice initialState rfl

/-- A concrete transaction used to instantiate witnesses. -/
def sampleTx : Transaction :=
  { id := "0", description := "Pan", amount := 3, type := TxType.variableExpense,
    category := some "Comida", date := "2024-01-05", user := "Usuario 1" }

/-- A concrete application state holding one transaction. -/
def sampleState : AppState :=
  { initialState with transactions := [sampleTx] }

/-- C10: the exporter is a pure observer — on a non-empty collection it
leaves the transaction list, category list, user list and budget exactly as
they were, and produces the fixed-name file with the rendered content. -/
theorem exportToCsv_pure_observer (s : AppState) (h : s.transactions ≠ []) :
    (exportToCsvS s).1.transactions = s.transactions ∧
    (exportToCsvS s).1.categories = s.categories ∧
    (exportToCsvS s).1.users = s.users ∧
    (exportToCsvS s).1.budget = s.budget ∧
    (exportToCsvS s).2 = ExportResult.file "transacciones.csv" (csvContent s.transactions) := by
  refine ⟨rfl, rfl, rfl, rfl, ?_⟩
  simp [exportToCsvS, exportToCsv, List.length_eq_zero, h]

/-- Witness for C10 at a concrete one-transaction state. -/
theorem exportToCsv_pure_observer_witness :
    (exportToCsvS sampleState).1.transactions = sampleState.transactions ∧
    (exportToCsvS sampleState).1.categories = sampleState.categories ∧
    (exportToCsvS sampleState).1.users = sampleState.users ∧
    (exportToCsvS sampleState).1.budget = sampleState.budget ∧
    (exportToCsvS sampleState).2
      = ExportResult.file "transacciones.csv" (csvContent sampleState.transactions) :=
  exportToCsv_pure_observer sampleState (by decide)

/-- C4: in a data row of the exported CSV, every field is wrapped in double
quotes with internal double quotes doubled exactly when its raw value
contains a literal comma, and is emitted unmodified otherwise (so a field
holding only quote characters and no comma passes through untouched).  The
hypotheses record that the three raw-joined textual columns — identifier,
rendered amount and ISO date — contain no comma, which holds for every value
the application produces for them. -/
theorem csvRow_quoting (t : Transaction)
    (hid : includesComma t.id = false)
    (hdate : includesComma t.date = false)
    (hamount : includesComma (amountStr t.amount) = false) :
    csvRow t = String.intercalate ","
      ((rawFields t).map
        (fun v => if includesComma v then "\"" ++ escapeQuotes v ++ "\"" else v)) := by
  have htype : includesComma (typeStr t.type) = false := by
    cases h : t.type <;> decide
  simp [csvRow, rawFields, formatCsvCell, hid, hdate, hamount, htype]

/-- A concrete transaction whose description contains a comma and whose user
field contains double quotes but no comma. -/
def csvTx : Transaction :=
  { id := "7", description := "Groceries, weekly", amount := 3,
    type := TxType.variableExpense, category := some "Comida",
    date := "2024-01-05", user := "\"Usuario\" 1" }

/-- Witness for C4 at a concrete transaction. -/
theorem csvRow_quoting_witness :
    csvRow csvTx = String.intercalate ","
      ((rawFields csvTx).map
        (fun v => if includesComma v then "\"" ++ escapeQuotes v ++ "\"" else v)) :=
  csvRow_quoting csvTx (by decide) (by decide) (by decide)

/-- The transaction fields built by a form submission with the amount text
`-5`. -/
def negInput : TxInput :=
  { description := "Groceries", amount := -5, type := TxType.variableExpense,
    category := some "Comida", date := "2024-01-05", user := "Usuario 1" }

/-- Counterexample to C5: a form submission with amount text `-5` and all
required fields non-empty is accepted by `handleSubmit`, and the transaction
it admits into the collection carries the negative amount `-5`. -/
theorem form_admits_negative_amount :
    handleSubmit "Groceries" "-5" "2024-01-05" "Usuario 1" TxType.variableExpense "Comida"
        = some negInput ∧
    negInput.amount < 0 ∧
    (addTransaction initialState negInput).transactions.map Transaction.amount
        = [(-5 : ℚ)] := by
  decide

/-- C5 as amended: a submission whose description, amount, date and user
texts are non-empty is admitted, and the stored amount is exactly the value
`parseFloat` extracts from the amount text — with no sign restriction; the
admitted transaction enters the collection with that amount. -/
theorem handleSubmit_stores_parsed_amount (d a dt u : String) (ty : TxType)
    (c : String) (q : ℚ) (hd : d ≠ "") (ha : a ≠ "") (hdt : dt ≠ "") (hu : u ≠ "")
    (hq : jsParseFloat a = some q) :
    handleSubmit d a dt u ty c
        = some { description := d, amount := q, type := ty,
                 category := if ty ≠ TxType.income then some c else none,
                 date := dt, user := u } ∧
    ∀ s : AppState,
      ∃ t ∈ (addTransaction s
                { description := d, amount := q, type := ty,
                  category := if ty ≠ TxType.income then some c else none,
                  date := dt, user := u }).transactions,
        t.amount = q := by
  constructor
  · simp [handleSubmit, hd, ha, hdt, hu, hq]
  · intro s
    refine ⟨mkTransaction s.nextId
      { description := d, amount := q, type := ty,
        category := if ty ≠ TxType.income then some c else none,
        date := dt, user := u }, ?_, rfl⟩
    exact (List.mem_insertionSort dateGE).mpr (List.mem_cons_self _ _)

/-- Witness for the amended C5 at the concrete `-5` submission. -/
theorem handleSubmit_stores_parsed_amount_witness :
    handleSubmit "Groceries" "-5" "2024-01-05" "Usuario 1" TxType.variableExpense "Comida"
        = some { description := "Groceries", amount := (-5 : ℚ),
                 type := TxType.variableExpense,
                 category := if TxType.variableExpense ≠ TxType.income
                             then some "Comida" else none,
                 date := "2024-01-05", user := "Usuario 1" } :=
  (handleSubmit_stores_parsed_amount "Groceries" "-5" "2024-01-05" "Usuario 1"
    TxType.variableExpense "Comida" (-5) (by decide) (by decide) (by decide)
    (by decide) (by decide)).1

/-- Inserting below every element of a list puts the new element in front. -/
lemma orderedInsert_of_forall_rel {α : Type} (r : α → α → Prop) [DecidableRel r] {x : α} :
    ∀ {m : List α}, (∀ y ∈ m, r x y) → m.orderedInsert r x = x :: m
  | [], _ => rfl
  | y :: ys, h => by rw [List.orderedInsert, if_pos (h y (List.mem_cons_self y ys))]

/-- Filtering commutes with ordered insertion into a sorted list. -/
lemma filter_orderedInsert {α : Type} (r : α → α → Prop) [DecidableRel r] [IsTrans α r]
    (p : α → Bool) (x : α) :
    ∀ l : List α, l.Sorted r →
      (l.orderedInsert r x).filter p
        = if p x then (l.filter p).orderedInsert r x else l.filter p := by
  intro l
  induction l with
  | nil =>
      intro _
      by_cases hx : p x <;> simp [List.orderedInsert, hx]
  | cons b l ih =>
      intro hs
      have hsl : l.Sorted r := hs.of_cons
      have hbl : ∀ y ∈ l, r b y := List.rel_of_sorted_cons hs
      by_cases hrxb : r x b
      · have hfilter : (l.filter p).orderedInsert r x = x :: l.filter p :=
          orderedInsert_of_forall_rel r (fun y hy =>
            IsTrans.trans x b y hrxb (hbl y (List.mem_filter.mp hy).1))
        rw [List.orderedInsert, if_pos hrxb]
        by_cases hx : p x <;> by_cases hb : p b <;>
          simp [List.filter_cons, List.orderedInsert, hrxb, hx, hb, hfilter]
      · rw [List.orderedInsert, if_neg hrxb]
        rw [List.filter_cons, List.filter_cons, ih hsl]
        by_cases hx : p x <;> by_cases hb : p b <;>
          simp [List.orderedInsert, hrxb, hx, hb]

/-- Filtering commutes with the stable sort. -/
lemma filter_insertionSort {α : Type} (r : α → α → Prop) [DecidableRel r]
    [IsTotal α r] [IsTrans α r] (p : α → Bool) :
    ∀ l : List α, (l.insertionSort r).filter p = (l.filter p).insertionSort r := by
  intro l
  induction l with
  | nil => rfl
  | cons x l ih =>
      show (List.orderedInsert r x (l.insertionSort r)).filter p = _
      rw [filter_orderedInsert r p x (l.insertionSort r) (List.sorted_insertionSort r l), ih,
        List.filter_cons]
      by_cases hx : p x <;> simp [List.insertionSort, hx]

/-- Sorting a list with an already sorted tail collapses the inner sort. -/
lemma insertionSort_idem_cons {α : Type} (r : α → α → Prop) [DecidableRel r]
    [IsTotal α r] [IsTrans α r] (x : α) (l : List α) :
    List.insertionSort r (x :: List.insertionSort r l) = List.insertionSort r (x :: l) := by
  show List.orderedInsert r x (List.insertionSort r (List.insertionSort r l))
      = List.orderedInsert r x (List.insertionSort r l)
  rw [(List.sorted_insertionSort r l).insertionSort_eq]

/-- Invariant of the event loop: if the current collection is the stable
descending sort of some stack `acc` of transactions (most recently inserted
first), then after any further events it is the stable descending sort of
the corresponding surviving stack. -/
lemma runOps_transactions : ∀ (ops : List Op) (s : AppState) (acc : List Transaction),
    s.transactions = List.insertionSort dateGE acc →
    (runOps s ops).transactions
      = List.insertionSort dateGE (survivorsRev s.nextId acc ops) := by
  intro ops
  induction ops with
  | nil =>
      intro s acc h
      simpa [runOps, survivorsRev] using h
  | cons op ops ih =>
      intro s acc h
      cases op with
      | add inp =>
          have h' : (addTransaction s inp).transactions
              = List.insertionSort dateGE (mkTransaction s.nextId inp :: acc) := by
            show List.insertionSort dateGE (mkTransaction s.nextId inp :: s.transactions) = _
            rw [h, insertionSort_idem_cons]
          have hrec := ih (addTransaction s inp) (mkTransaction s.nextId inp :: acc) h'
          simpa [runOps, step, survivorsRev] using hrec
      | del i =>
          have h' : (deleteTransaction s i).transactions
              = List.insertionSort dateGE (acc.filter (fun t => t.id != i)) := by
            show s.transactions.filter (fun t => t.id != i) = _
            rw [h, filter_insertionSort]
          have hrec := ih (deleteTransaction s i) (acc.filter (fun t => t.id != i)) h'
          simpa [runOps, step, survivorsRev] using hrec

/-- C1 as amended: after every sequence of `addTransaction` and
`deleteTransaction` calls the collection is sorted by date descending, and it
equals the stable descending sort of the surviving insertions taken most
recently inserted first — so two transactions with equal dates appear in the
reverse of the order in which they were inserted. -/
theorem transactions_sorted_ties_reversed (ops : List Op) :
    (runOps initialState ops).transactions
        = List.insertionSort dateGE (survivorsRev 0 [] ops) ∧
    List.Sorted dateGE (runOps initialState ops).transactions := by
  have h := runOps_transactions ops initialState [] rfl
  refine ⟨h, ?_⟩
  rw [h]
  exact List.sorted_insertionSort dateGE _

/-- Input record of the first insertion of the counterexample. -/
def inpA : TxInput :=
  { description := "A", amount := 1, type := TxType.income, category := none,
    date := "2024-01-05", user := "Usuario 1" }

/-- Input record of the second insertion of the counterexample, dated as the
first. -/
def inpB : TxInput :=
  { description := "B", amount := 2, type := TxType.income, category := none,
    date := "2024-01-05", user := "Usuario 1" }

/-- Counterexample to C1 as stated: inserting `A` and then `B` with equal
dates leaves the collection listing `B` before `A` — the reverse of the
insertion order, where the claim requires `A` before `B`. -/
theorem equal_dates_reverse_insertion_order :
    inpA.date = inpB.date ∧
    (runOps initialState [Op.add inpA, Op.add inpB]).transactions.map Transaction.description
        = ["B", "A"] := by
  decide

end ExpensesApp
